import Mathlib

/-!
# Verification of the bun_redis_wrapper core

Shallow embedding of the algorithmic core of the `bun_redis_wrapper`
repository: the namespace key-prefixing layer (`src/index.ts`), the job
queue controller (`QueueController`), the rate limiter controller
(`RateLimiterController`) and the cache controller (`CacheController`).

The underlying key-value store (`redis-wrapper.ts`) is not part of the
source tree; its primitives (get/set/del, atomic INCR, TTL, sorted
containers, unordered sets) are modelled from the specification's
"Keyspace Store interface" section and standard Redis semantics, and each
such definition is marked `Modelled from the spec:` in its doc comment.
All controller logic is translated directly from the TypeScript source.

Conventions:
* timestamps are epoch milliseconds, `Int`;
* JavaScript numbers that participate in fractional arithmetic are `ℚ`;
* the JSON (de)serialization round-trip is assumed exact, so stored
  records are kept structurally.
-/

namespace BunRedis

/-! ## Association-list store primitives -/

/-- Modelled from the spec: lookup in a string-keyed table of the Keyspace
Store (`get`-style primitives of `redis-wrapper.ts`, which is not under
`src/`). -/
def assocGet {α : Type} (l : List (String × α)) (k : String) : Option α :=
  match l with
  | [] => none
  | (k', v) :: rest => if k = k' then some v else assocGet rest k

/-- Modelled from the spec: overwrite-or-insert in a string-keyed table
(`set`-style primitives of the Keyspace Store). -/
def assocSet {α : Type} (l : List (String × α)) (k : String) (v : α) :
    List (String × α) :=
  (k, v) :: l.filter (fun e => e.1 ≠ k)

/-- Modelled from the spec: delete a key from a string-keyed table
(`delete` of the Keyspace Store). -/
def assocDel {α : Type} (l : List (String × α)) (k : String) :
    List (String × α) :=
  l.filter (fun e => e.1 ≠ k)

theorem assocGet_assocSet_self {α : Type} (l : List (String × α)) (k : String)
    (v : α) : assocGet (assocSet l k v) k = some v := by
  simp [assocGet, assocSet]

theorem assocGet_filterNe {α : Type} (l : List (String × α)) (k k' : String)
    (h : k' ≠ k) :
    assocGet (l.filter (fun e => e.1 ≠ k)) k' = assocGet l k' := by
  induction l with
  | nil => rfl
  | cons e rest ih =>
      rcases e with ⟨ek, ev⟩
      by_cases he : ek = k
      · subst he
        have hk' : k' ≠ ek := h
        simp only [List.filter_cons, ne_eq, decide_not, decide_eq_true_eq,
          not_true, decide_True, Bool.not_true, if_false]
        calc assocGet (List.filter (fun e => !decide (e.1 = ek)) rest) k'
            = assocGet rest k' := by simpa [ne_eq, decide_not] using ih
          _ = assocGet ((ek, ev) :: rest) k' := by simp [assocGet, hk']
      · by_cases hk' : k' = ek
        · subst hk'
          simp [assocGet, List.filter_cons, he]
        · simp only [List.filter_cons, ne_eq, decide_not, decide_eq_true_eq]
          rw [if_pos (by simpa using he)]
          simp only [assocGet, if_neg hk']
          simpa [ne_eq, decide_not] using ih

theorem assocGet_assocSet_ne {α : Type} (l : List (String × α)) (k k' : String)
    (v : α) (h : k' ≠ k) : assocGet (assocSet l k v) k' = assocGet l k' := by
  simp only [assocSet, assocGet, if_neg h]
  exact assocGet_filterNe l k k' h

/-! ## Namespace layer (`createNamespacedRedis`, src/index.ts lines 154-180) -/

/-- JS `namespace.endsWith(":")` specialised to the one-character suffix
used by the source: true iff the last character is a colon. -/
def endsWithColon (ns : String) : Bool :=
  ns.data.getLast? = some ':'

/-- `const prefix = namespace.endsWith(":") ? namespace : namespace + ":"`
(src/index.ts line 159). -/
def normNs (ns : String) : String :=
  if endsWithColon ns then ns else ns ++ ":"

/-- `const addPrefix = (key) => prefix + key` (src/index.ts line 164). -/
def nsKey (ns key : String) : String :=
  normNs ns ++ key

/-- The raw string store seen by the namespace wrapper. -/
abbrev SStore := List (String × String)

/-- `set` through a namespaced wrapper: prefix the key, delegate to the
base store (src/index.ts lines 178-180). -/
def nsSet (st : SStore) (ns key v : String) : SStore :=
  assocSet st (nsKey ns key) v

/-- `get` through a namespaced wrapper: prefix the key, delegate to the
base store (src/index.ts lines 174-176). -/
def nsGet (st : SStore) (ns key : String) : Option String :=
  assocGet st (nsKey ns key)

/-! ## Sorted container (Redis sorted set) primitives

`QueueController` keeps its pending/processing queues in Redis sorted
sets.  A sorted set is a finite set of `(score, member)` pairs, at most
one entry per member; range queries are ordered by `(score, member)`.
The store itself is not under `src/`, so these primitives are modelled
from the spec's Keyspace Store interface (§6) and Redis semantics. -/

/-- An entry of a sorted container: float score (here `Int`, since every
score in the queue is an epoch-millisecond value) and member string. -/
abbrev ZEntry := Int × String

/-- A sorted container as a finite list of entries, member-unique by
construction of the operations below. -/
abbrev ZSet := List ZEntry

/-- Modelled from the spec: `zadd` inserts a member with a score,
replacing the member's previous score if it was present. -/
def zadd (z : ZSet) (score : Int) (member : String) : ZSet :=
  (score, member) :: z.filter (fun e => e.2 ≠ member)

/-- Modelled from the spec: `zrem` removes a member and reports how many
entries were actually removed (the "atomic removal-returns-count"
primitive of §5). -/
def zrem (z : ZSet) (member : String) : Nat × ZSet :=
  ((z.filter (fun e => e.2 = member)).length,
   z.filter (fun e => e.2 ≠ member))

/-- Strict `(score, member)` lexicographic order on entries — the order
in which a Redis sorted set lists its elements. -/
def zentryLt (a b : ZEntry) : Prop :=
  a.1 < b.1 ∨ (a.1 = b.1 ∧ a.2 < b.2)

instance (a b : ZEntry) : Decidable (zentryLt a b) := by
  unfold zentryLt; infer_instance

/-- One step of selecting the least entry in `(score, member)` order. -/
def zminStep (acc : Option ZEntry) (e : ZEntry) : Option ZEntry :=
  match acc with
  | none => some e
  | some m => if zentryLt e m then some e else some m

/-- Modelled from the spec: `ZRANGEBYSCORE key lo hi LIMIT 0 1` — the
least entry, in `(score, member)` order, whose score lies in
`[lo, hi]`; `none` when no entry qualifies. -/
def zrangebyscoreHead (z : ZSet) (lo hi : Int) : Option ZEntry :=
  (z.filter (fun e => lo ≤ e.1 ∧ e.1 ≤ hi)).foldl zminStep none

/-- Membership of a member string in a sorted container. -/
def zmem (z : ZSet) (member : String) : Bool :=
  z.any (fun e => e.2 = member)

/-- Modelled from the spec: `SADD` on the unordered-set container. -/
def saddRun (l : List String) (x : String) : List String :=
  if l.contains x then l else x :: l

/-! ## Job queue (`QueueController`, src/unnamed/part_001) -/

/-- The `Job` record (src/unnamed/part_001 lines 50-60).  `data` is the
opaque payload, kept as a string; `attempts` starts at 0. -/
structure Job where
  id : String
  type : String
  data : String
  priority : Int
  createdAt : Int
  attempts : Nat
  maxRetries : Nat
  lastError : Option String
  scheduledFor : Int
deriving DecidableEq, Repr

/-- The queue controller's view of its namespaced keyspace: the two
sorted containers, the two id sets, and the `job:<id>` records.  JSON
round-trips exactly, so records are stored structurally. -/
structure QueueState where
  pending : ZSet
  processing : ZSet
  completed : List String
  failed : List String
  jobs : List (String × Job)
deriving DecidableEq, Repr

/-- The empty queue keyspace. -/
def QueueState.empty : QueueState :=
  ⟨[], [], [], [], []⟩

/-- `getJSON("job:" + jobId)` inside the queue namespace. -/
def jobGet (s : QueueState) (jobId : String) : Option Job :=
  assocGet s.jobs ("job:" ++ jobId)

/-- The ordering score of `add`:
`job.scheduledFor + (10 - job.priority)` (src/unnamed/part_001 line
118) — higher priority gives a lower score. -/
def addScore (scheduledFor priority : Int) : Int :=
  scheduledFor + (10 - priority)

/-- `QueueController.add` (src/unnamed/part_001 lines 95-122) with the
generated id and the already-defaulted options as arguments: builds the
record with `attempts = 0`, stores it under `job:<id>`, and inserts the
id into `pending` with the ordering score. -/
def QueueController.add (s : QueueState) (now : Int) (jobId ty dat : String)
    (priority : Int) (maxRetries : Nat) (scheduledFor : Int) : QueueState :=
  let job : Job :=
    { id := jobId, type := ty, data := dat, priority := priority,
      createdAt := now, attempts := 0, maxRetries := maxRetries,
      lastError := none, scheduledFor := scheduledFor }
  { s with
    jobs := assocSet s.jobs ("job:" ++ jobId) job,
    pending := zadd s.pending (addScore scheduledFor priority) jobId }

/-- `QueueController.next` (src/unnamed/part_001 lines 129-155):
`ZRANGEBYSCORE pending 0 now LIMIT 0 1`; if an id is found, remove it
from `pending` (the removal count is ignored, as in the source), add it
to `processing` with score `now`, and load the record; a missing record
is cleaned out of `processing` and yields `null`.  The record is
returned exactly as stored — no field is modified. -/
def QueueController.next (s : QueueState) (now : Int) :
    Option Job × QueueState :=
  match zrangebyscoreHead s.pending 0 now with
  | none => (none, s)
  | some (_, jobId) =>
    let (_, pend') := zrem s.pending jobId
    let s1 := { s with pending := pend' }
    let s2 := { s1 with processing := zadd s1.processing now jobId }
    match jobGet s2 jobId with
    | none =>
        (none, { s2 with processing := (zrem s2.processing jobId).2 })
    | some job => (some job, s2)

/-- `QueueController.next` under the lost-race interleaving: a concurrent
worker removes the selected id from `pending` between this worker's
`ZRANGEBYSCORE` read (line 133) and its `zrem` (line 142).  The code of
lines 142-154 is replayed verbatim on the post-steal state; the `Nat`
component is the count this worker's `zrem` reported. -/
def QueueController.nextRaced (s : QueueState) (now : Int) :
    Option Job × QueueState × Nat :=
  match zrangebyscoreHead s.pending 0 now with
  | none => (none, s, 0)
  | some (_, jobId) =>
    let sSteal := { s with pending := (zrem s.pending jobId).2 }
    let (removed, pend') := zrem sSteal.pending jobId
    let s1 := { sSteal with pending := pend' }
    let s2 := { s1 with processing := zadd s1.processing now jobId }
    match jobGet s2 jobId with
    | none =>
        (none, { s2 with processing := (zrem s2.processing jobId).2 }, removed)
    | some job => (some job, s2, removed)

/-- `QueueController.fail` (src/unnamed/part_001 lines 179-204): load the
record (missing ⇒ no-op), increment `attempts`, record `lastError`,
remove the id from `processing`; then either requeue into `pending` with
score `Date.now() + 2^attempts * 1000` when `attempts < maxRetries`, or
add the id to the `failed` set. -/
def QueueController.fail (s : QueueState) (now : Int) (jobId err : String) :
    QueueState :=
  match jobGet s jobId with
  | none => s
  | some job =>
    let job' := { job with attempts := job.attempts + 1, lastError := some err }
    let s1 := { s with processing := (zrem s.processing jobId).2 }
    if job'.attempts < job'.maxRetries then
      let delay : Int := 2 ^ job'.attempts
      let retryAt := now + delay * 1000
      { s1 with
        jobs := assocSet s1.jobs ("job:" ++ jobId) job',
        pending := zadd s1.pending retryAt jobId }
    else
      { s1 with
        failed := saddRun s1.failed jobId,
        jobs := assocSet s1.jobs ("job:" ++ jobId) job' }

/-- A queue state is well formed when every pending entry points at a
stored job record whose ordering score it carries, with a priority in
the documented 1-10 range (`JobOptions`, src/unnamed/part_001 line 63).
`add` establishes exactly this shape. -/
def QueueWF (s : QueueState) : Prop :=
  ∀ e ∈ s.pending, ∃ job : Job,
    jobGet s e.2 = some job ∧ job.id = e.2 ∧
    e.1 = addScore job.scheduledFor job.priority ∧
    1 ≤ job.priority ∧ job.priority ≤ 10

/-- `QueueController.getStatus` (src/unnamed/part_001 lines 222-236). -/
def QueueController.getStatus (s : QueueState) (jobId : String) : String :=
  if zmem s.pending jobId then "pending"
  else if zmem s.processing jobId then "processing"
  else if s.completed.contains jobId then "completed"
  else if s.failed.contains jobId then "failed"
  else "unknown"

/-- Two jobs with the same schedule time 0: A with priority 1, then B
with priority 10, added in that order (the priority scenario of §8). -/
def prioScenario : QueueState :=
  QueueController.add
    (QueueController.add QueueState.empty 0 "A" "t" "d" 1 3 0)
    0 "B" "t" "d" 10 3 0

/-- The record of job B in `prioScenario`. -/
def prioJobB : Job :=
  { id := "B", type := "t", data := "d", priority := 10, createdAt := 0,
    attempts := 0, maxRetries := 3, lastError := none, scheduledFor := 0 }

/-- A job with `maxRetries = 3` claimed and failed three times: added at
time 0 (ordering score 5), claimed at 5 and failed (`attempts = 1`,
requeued at `5 + 2^1·1000 = 2005`), claimed at 2005 and failed
(`attempts = 2`, requeued at `2005 + 2^2·1000 = 6005`), claimed at 6005
and failed a third time. -/
def failScenario : QueueState :=
  let q0 := QueueController.add QueueState.empty 0 "j" "t" "d" 5 3 0
  let q1 := QueueController.fail (QueueController.next q0 5).2 5 "j" "e1"
  let q2 := QueueController.fail (QueueController.next q1 2005).2 2005 "j" "e2"
  QueueController.fail (QueueController.next q2 6005).2 6005 "j" "e3"

/-- A pending entry whose job record is absent, next to a fully stored
eligible job: the dangling-entry scenario. -/
def danglingScenario : QueueState :=
  { pending := [(0, "ghost"), (5, "real")],
    processing := [],
    completed := [],
    failed := [],
    jobs := [("job:real",
      { id := "real", type := "t", data := "d", priority := 5,
        createdAt := 0, attempts := 0, maxRetries := 3, lastError := none,
        scheduledFor := 0 })] }

/-- The job record of `racedScenario`. -/
def racedJob : Job :=
  { id := "j", type := "t", data := "d", priority := 10, createdAt := 0,
    attempts := 0, maxRetries := 3, lastError := none, scheduledFor := 0 }

/-- A single eligible pending job with its record stored: the state on
which the lost-race interleaving of `next()` is exercised. -/
def racedScenario : QueueState :=
  { pending := [(0, "j")],
    processing := [],
    completed := [],
    failed := [],
    jobs := [("job:j", racedJob)] }

/-! ## Rate limiter (`RateLimiterController`, src/unnamed/part_003) -/

/-- The token-bucket record `{tokens, lastRefill}` (stored as JSON by the
source; JSON round-trips exactly so it is kept structurally).  `tokens`
is a JS number, modelled as `ℚ`. -/
structure Bucket where
  tokens : ℚ
  lastRefill : Int
deriving DecidableEq, Repr

/-- The rate limiter's namespaced keyspace: integer counter keys (fixed
window), token-bucket records, and per-key expiry times (epoch ms).
Keys are the controller-side strings (`fixed:<id>`, `bucket:<id>`, …);
the uniform `ratelimit:` namespace prefix is a bijection on keys and is
elided. -/
structure RLStore where
  counters : List (String × Nat)
  buckets : List (String × Bucket)
  expireAt : List (String × Int)
deriving DecidableEq, Repr

/-- The empty rate-limiter keyspace. -/
def RLStore.empty : RLStore := ⟨[], [], []⟩

/-- Modelled from the spec: a key with an expiry time at or before `now`
has lapsed and behaves as absent. -/
def keyLive (s : RLStore) (now : Int) (key : String) : Bool :=
  match assocGet s.expireAt key with
  | some e => decide (now < e)
  | none => true

/-- Modelled from the spec: atomic `INCR`.  An absent or lapsed key is
(re)created with value 1 and no expiry; otherwise the stored integer is
incremented, keeping the expiry. -/
def rlIncr (s : RLStore) (now : Int) (key : String) : Nat × RLStore :=
  match assocGet s.counters key with
  | some c =>
    if keyLive s now key then
      (c + 1, { s with counters := assocSet s.counters key (c + 1) })
    else
      (1, { s with counters := assocSet s.counters key 1,
                   expireAt := assocDel s.expireAt key })
  | none =>
    (1, { s with counters := assocSet s.counters key 1,
                 expireAt := assocDel s.expireAt key })

/-- Modelled from the spec: `ttl(key)` in whole seconds — `-1` for a key
without expiry, `-2` for an absent or lapsed key, otherwise the
remaining time rounded up to whole seconds. -/
def rlTtl (s : RLStore) (now : Int) (key : String) : Int :=
  if (assocGet s.counters key).isSome || (assocGet s.buckets key).isSome then
    if keyLive s now key then
      match assocGet s.expireAt key with
      | none => -1
      | some e => (e - now + 999) / 1000
    else -2
  else -2

/-- Modelled from the spec: `expire(key, seconds)` sets the key's expiry
to `now + seconds·1000` ms. -/
def rlExpire (s : RLStore) (now : Int) (key : String) (seconds : Nat) :
    RLStore :=
  { s with expireAt := assocSet s.expireAt key (now + (seconds : Int) * 1000) }

/-- Modelled from the spec: `del(key)` removes the key. -/
def rlDel (s : RLStore) (key : String) : RLStore :=
  { counters := assocDel s.counters key,
    buckets := assocDel s.buckets key,
    expireAt := assocDel s.expireAt key }

/-- The `RateLimitResult` record (src/unnamed/part_003 lines 618-624);
numeric fields are JS numbers, modelled as `ℚ`. -/
structure RateLimitResult where
  allowed : Bool
  remaining : ℚ
  limit : ℚ
  resetAt : ℚ
  retryAfter : Option ℚ
deriving DecidableEq, Repr

/-- `RateLimiterController.checkFixedWindow` (src/unnamed/part_003 lines
681-712): increment the `fixed:<id>` counter, set the TTL when the
post-increment value is exactly 1, and report
`allowed = count ≤ maxRequests`, `remaining = max(0, maxRequests −
count)`, `retryAfter = ttl` when denied. -/
def checkFixedWindow (s : RLStore) (now : Int) (identifier : String)
    (maxRequests windowSeconds : Nat) : RateLimitResult × RLStore :=
  let key := "fixed:" ++ identifier
  let ics := rlIncr s now key
  let count := ics.1
  let s2 := if count = 1 then rlExpire ics.2 now key windowSeconds else ics.2
  let ttl := rlTtl s2 now key
  ({ allowed := decide (count ≤ maxRequests),
     remaining := max 0 ((maxRequests : ℚ) - (count : ℚ)),
     limit := (maxRequests : ℚ),
     resetAt := (now : ℚ) + (ttl : ℚ) * 1000,
     retryAfter := if count ≤ maxRequests then none else some (ttl : ℚ) },
   s2)

/-- `RateLimiterController.checkTokenBucket` (src/unnamed/part_003 lines
757-805): read the `bucket:<id>` record — absent means a new bucket with
`tokens = capacity` — refill by `elapsed × refillRate` capped at
`capacity`, consume one token when `tokens ≥ 1`, and persist
`{tokens, lastRefill: now}` with a 3600 s expiry. -/
def checkTokenBucket (s : RLStore) (now : Int) (identifier : String)
    (capacity refillRate : ℚ) : RateLimitResult × RLStore :=
  let key := "bucket:" ++ identifier
  let bucketData := if keyLive s now key then assocGet s.buckets key else none
  let tokens0 : ℚ :=
    match bucketData with
    | some b =>
      let elapsed : ℚ := ((now : ℚ) - (b.lastRefill : ℚ)) / 1000
      min capacity (b.tokens + elapsed * refillRate)
    | none => capacity
  let tokens : ℚ := if 1 ≤ tokens0 then tokens0 - 1 else tokens0
  let s' : RLStore :=
    { s with buckets := assocSet s.buckets key ⟨tokens, now⟩,
             expireAt := assocSet s.expireAt key (now + 3600 * 1000) }
  ({ allowed := decide (1 ≤ tokens0),
     remaining := ((⌊tokens⌋ : Int) : ℚ),
     limit := capacity,
     resetAt := (now : ℚ) + (capacity - tokens) / refillRate * 1000,
     retryAfter :=
       if 1 ≤ tokens0 then none
       else some ((⌈(1 - tokens) / refillRate⌉ : Int) : ℚ) }, s')

/-- `RateLimiterController.reset` (src/unnamed/part_003 lines 813-821):
delete `"<algorithm>:<identifier>"` when an algorithm is given, else the
three keys `fixed:<id>`, `sliding:<id>`, `bucket:<id>`.  The algorithm
argument is the literal string of the `RateLimitAlgorithm` union
(`"fixed" | "sliding" | "token-bucket"`). -/
def RateLimiterController.reset (s : RLStore) (identifier : String)
    (algorithm : Option String) : RLStore :=
  let patterns :=
    match algorithm with
    | some a => [a ++ ":" ++ identifier]
    | none => ["fixed:" ++ identifier, "sliding:" ++ identifier,
               "bucket:" ++ identifier]
  patterns.foldl rlDel s

/-- A sequence of `check` calls with the fixed-window algorithm for one
identifier, at the given call times. -/
def fixedRun (identifier : String) (maxRequests windowSeconds : Nat) :
    RLStore → List Int → List RateLimitResult × RLStore
  | s, [] => ([], s)
  | s, t :: ts =>
    let p := checkFixedWindow s t identifier maxRequests windowSeconds
    let q := fixedRun identifier maxRequests windowSeconds p.2 ts
    (p.1 :: q.1, q.2)

/-! ## Cache (`CacheController`, src/unnamed/part_003) -/

/-- The raw store as the cache controller sees it: serialized values
with expiry, plus the integer counter keys used for statistics.  The
controller holds the UN-namespaced store handle: its data keys are
`<namespace>:<key>` while its statistics live at the fixed keys
`cache:stats:hits` / `cache:stats:misses` (src/unnamed/part_003 line
353). -/
structure CacheWorld where
  values : List (String × String)
  expireAt : List (String × Int)
  counters : List (String × Nat)
deriving DecidableEq, Repr

/-- The empty cache keyspace. -/
def CacheWorld.empty : CacheWorld := ⟨[], [], []⟩

/-- Modelled from the spec: liveness of a cache key against its expiry. -/
def cacheLive (w : CacheWorld) (now : Int) (key : String) : Bool :=
  match assocGet w.expireAt key with
  | some e => decide (now < e)
  | none => true

/-- Modelled from the spec: `getJSON` — `null` on an absent or lapsed
key, else the stored value. -/
def cacheRead (w : CacheWorld) (now : Int) (key : String) : Option String :=
  if cacheLive w now key then assocGet w.values key else none

/-- `CacheController.getKey` (src/unnamed/part_003 lines 590-592):
`` `${this.namespace}:${key}` ``. -/
def CacheController.getKey (nsp key : String) : String :=
  nsp ++ ":" ++ key

/-- The fixed statistics key prefix `cache:stats` (src/unnamed/part_003
line 353) with the `:hits` suffix of `incrementHits`. -/
def statsHitsKey : String := "cache:stats:hits"

/-- The fixed statistics key with the `:misses` suffix of
`incrementMisses`. -/
def statsMissesKey : String := "cache:stats:misses"

/-- Modelled from the spec: atomic `INCR` on a counter key of the cache
store (statistics keys never carry a TTL). -/
def cIncr (w : CacheWorld) (key : String) : CacheWorld :=
  { w with counters :=
      assocSet w.counters key ((assocGet w.counters key).getD 0 + 1) }

/-- `CacheController.getOrSet` (src/unnamed/part_003 lines 369-392) with
the loader abstracted by the value it would produce: on a hit, increment
the hit counter and return the cached value with 0 loader invocations;
on a miss, increment the miss counter, invoke the loader (1 invocation),
store its result with the given TTL, and return it. -/
def CacheController.getOrSet (w : CacheWorld) (now : Int) (nsp key : String)
    (loaderVal : String) (ttl : Int) : String × Nat × CacheWorld :=
  let cacheKey := CacheController.getKey nsp key
  match cacheRead w now cacheKey with
  | some cached => (cached, 0, cIncr w statsHitsKey)
  | none =>
    let w1 := cIncr w statsMissesKey
    let w2 : CacheWorld :=
      { w1 with values := assocSet w1.values cacheKey loaderVal,
                expireAt := assocSet w1.expireAt cacheKey (now + ttl * 1000) }
    (loaderVal, 1, w2)

/-- The `CacheStats` record (src/unnamed/part_003 lines 336-341). -/
structure CacheStats where
  hits : Nat
  misses : Nat
  hitRate : ℚ
  totalKeys : Nat
deriving DecidableEq, Repr

/-- `Math.round(x * 100) / 100` — rounding to two decimals as in
`getStats` (src/unnamed/part_003 line 520); `Math.round` is
round-half-up, which agrees with Mathlib's `round` on the non-negative
values that occur here. -/
def round2 (q : ℚ) : ℚ := ((round (q * 100) : Int) : ℚ) / 100

/-- `CacheController.getStats` (src/unnamed/part_003 lines 506-523):
read the two global counters, compute `hitRate = hits/(hits+misses)×100`
(0 when there was no traffic) rounded to two decimals, and count the
keys of this namespace.  `scanAll(`<ns>:*`)` is modelled as the stored
keys with prefix `<ns>:`. -/
def CacheController.getStats (w : CacheWorld) (nsp : String) : CacheStats :=
  let hits := (assocGet w.counters statsHitsKey).getD 0
  let misses := (assocGet w.counters statsMissesKey).getD 0
  let total := hits + misses
  let hitRate : ℚ :=
    if 0 < total then ((hits : ℚ) / (total : ℚ)) * 100 else 0
  let pat := CacheController.getKey nsp ""
  { hits := hits, misses := misses,
    hitRate := round2 hitRate,
    totalKeys :=
      (w.values.filter (fun kv => pat.data.isPrefixOf kv.1.data)).length }

/-- A cache store after one hit and two misses: `getOrSet` on fresh
`"k1"` (miss), fresh `"k2"` (miss), then `"k1"` again (hit), all at time
0 with TTL 300 in namespace `"cache"`. -/
def c8World : CacheWorld :=
  (CacheController.getOrSet
    (CacheController.getOrSet
      (CacheController.getOrSet CacheWorld.empty 0 "cache" "k1" "v1"
        300).2.2
      0 "cache" "k2" "v2" 300).2.2
    0 "cache" "k1" "v1" 300).2.2

/-! ## Supporting lemmas -/

theorem foldl_zminStep_mem :
    ∀ (l : List ZEntry) (acc : Option ZEntry) (m : ZEntry),
      l.foldl zminStep acc = some m → acc = some m ∨ m ∈ l := by
  intro l
  induction l with
  | nil =>
      intro acc m h
      exact Or.inl h
  | cons e t ih =>
      intro acc m h
      rw [List.foldl_cons] at h
      rcases ih (zminStep acc e) m h with h1 | h1
      · cases acc with
        | none =>
            have he : e = m := by simpa [zminStep] using h1
            exact Or.inr (he ▸ List.mem_cons_self e t)
        | some a =>
            by_cases hlt : zentryLt e a
            · have he : e = m := by simpa [zminStep, hlt] using h1
              exact Or.inr (he ▸ List.mem_cons_self e t)
            · have ha : a = m := by simpa [zminStep, hlt] using h1
              exact Or.inl (by rw [ha])
      · exact Or.inr (List.mem_cons_of_mem e h1)

theorem foldl_zminStep_le :
    ∀ (l : List ZEntry) (acc : Option ZEntry) (m : ZEntry),
      l.foldl zminStep acc = some m →
      (∀ a, acc = some a → m.1 ≤ a.1) ∧ (∀ e ∈ l, m.1 ≤ e.1) := by
  intro l
  induction l with
  | nil =>
      intro acc m h
      refine ⟨fun a ha => ?_, fun e he => absurd he (List.not_mem_nil e)⟩
      have : some a = some m := by rw [← ha]; exact h
      cases this
      exact le_refl _
  | cons e t ih =>
      intro acc m h
      rw [List.foldl_cons] at h
      obtain ⟨hacc, hmem⟩ := ih (zminStep acc e) m h
      have hme : m.1 ≤ e.1 := by
        cases acc with
        | none => exact hacc e (by simp [zminStep])
        | some a =>
            by_cases hlt : zentryLt e a
            · exact hacc e (by simp [zminStep, hlt])
            · have hma : m.1 ≤ a.1 := hacc a (by simp [zminStep, hlt])
              have hae : a.1 ≤ e.1 := by
                unfold zentryLt at hlt
                push_neg at hlt
                exact hlt.1
              exact le_trans hma hae
      refine ⟨fun a ha => ?_, fun x hx => ?_⟩
      · subst ha
        by_cases hlt : zentryLt e a
        · have h1 : m.1 ≤ e.1 := hacc e (by simp [zminStep, hlt])
          have h2 : e.1 ≤ a.1 := by
            rcases hlt with h | h
            · exact le_of_lt h
            · exact le_of_eq h.1
          exact le_trans h1 h2
        · exact hacc a (by simp [zminStep, hlt])
      · rcases List.mem_cons.mp hx with rfl | hxt
        · exact hme
        · exact hmem x hxt

/-- The entry returned by `ZRANGEBYSCORE … LIMIT 0 1` is an entry of the
container, lies in the score range, and has the least score among the
entries in range. -/
theorem zhead_spec (z : ZSet) (lo hi : Int) (m : ZEntry)
    (h : zrangebyscoreHead z lo hi = some m) :
    m ∈ z ∧ lo ≤ m.1 ∧ m.1 ≤ hi ∧
      ∀ e ∈ z, lo ≤ e.1 → e.1 ≤ hi → m.1 ≤ e.1 := by
  unfold zrangebyscoreHead at h
  have hm : m ∈ z.filter (fun e => decide (lo ≤ e.1 ∧ e.1 ≤ hi)) := by
    rcases foldl_zminStep_mem _ _ _ h with h0 | h0
    · cases h0
    · exact h0
  have hmz := List.mem_filter.mp hm
  have hrange : lo ≤ m.1 ∧ m.1 ≤ hi := by
    have := hmz.2
    simpa using this
  refine ⟨hmz.1, hrange.1, hrange.2, fun e he hlo hhi => ?_⟩
  have he' : e ∈ z.filter (fun e => decide (lo ≤ e.1 ∧ e.1 ≤ hi)) :=
    List.mem_filter.mpr ⟨he, by simp [hlo, hhi]⟩
  exact (foldl_zminStep_le _ _ _ h).2 e he'

/-- After filtering a member out, the member is gone. -/
theorem zmem_filterNe (l : ZSet) (id : String) :
    zmem (l.filter (fun e => !decide (e.2 = id))) id = false := by
  induction l with
  | nil => rfl
  | cons e t ih =>
      by_cases he : e.2 = id
      · simp only [List.filter_cons, he, decide_True, Bool.not_true,
          if_false]
        exact ih
      · simpa [List.filter_cons, he, zmem, List.any_cons] using ih

/-- A second `zrem` of the same member removes zero entries. -/
theorem zrem_zrem_count (z : ZSet) (id : String) :
    (zrem (zrem z id).2 id).1 = 0 := by
  unfold zrem
  simp only [List.length_eq_zero, List.filter_eq_nil_iff]
  intro e he
  have := List.mem_filter.mp he
  simpa using this.2

/-- String append cancels on the right. -/
theorem string_append_cancel_right (a b c : String) (h : a ++ c = b ++ c) :
    a = b := by
  have h' := congrArg String.data h
  simp [String.data_append] at h'
  exact String.ext h'

/-- Distinct normalized namespace prefixes give distinct full keys for
the same relative key. -/
theorem nsKey_ne_of_normNs_ne (ns1 ns2 k : String)
    (h : normNs ns1 ≠ normNs ns2) : nsKey ns1 k ≠ nsKey ns2 k := by
  intro hk
  exact h (string_append_cancel_right _ _ _ hk)

/-- When neither normalized prefix is a string prefix of the other, the
two namespaces' full keys are disjoint for all pairs of relative keys. -/
theorem nsKey_ne_of_not_isPrefixOf (ns1 ns2 k k' : String)
    (h12 : (normNs ns1).data.isPrefixOf (normNs ns2).data = false)
    (h21 : (normNs ns2).data.isPrefixOf (normNs ns1).data = false) :
    nsKey ns2 k' ≠ nsKey ns1 k := by
  intro hk
  have hdata : (normNs ns2).data ++ k'.data =
      (normNs ns1).data ++ k.data := by
    have h' := congrArg String.data hk
    simpa [nsKey, String.data_append] using h'
  have hp2 : (normNs ns2).data <+: (normNs ns1).data ++ k.data :=
    ⟨k'.data, hdata⟩
  have hp1 : (normNs ns1).data <+: (normNs ns1).data ++ k.data :=
    ⟨k.data, rfl⟩
  rcases List.prefix_or_prefix_of_prefix hp1 hp2 with h | h
  · rw [← List.isPrefixOf_iff_prefix, h12] at h
    exact Bool.noConfusion h
  · rw [← List.isPrefixOf_iff_prefix, h21] at h
    exact Bool.noConfusion h

/-- `SADD` leaves the member in the set. -/
theorem saddRun_contains (l : List String) (x : String) :
    (saddRun l x).contains x = true := by
  unfold saddRun
  by_cases h : l.contains x = true
  · rw [if_pos h]; exact h
  · rw [if_neg h]; simp

/-- A first fixed-window call on a fresh counter key: the counter is
created at 1 and the window TTL `windowSeconds` is set. -/
theorem checkFixedWindow_fresh (s : RLStore) (now : Int) (id : String)
    (N W : Nat) (hc : assocGet s.counters ("fixed:" ++ id) = none)
    (hW : 0 < W) :
    (checkFixedWindow s now id N W).2.counters =
      assocSet s.counters ("fixed:" ++ id) 1 ∧
    (checkFixedWindow s now id N W).2.expireAt =
      assocSet (assocDel s.expireAt ("fixed:" ++ id)) ("fixed:" ++ id)
        (now + (W : Int) * 1000) ∧
    (checkFixedWindow s now id N W).1.allowed = decide (1 ≤ N) ∧
    (checkFixedWindow s now id N W).1.remaining =
      max 0 ((N : ℚ) - ((1 : Nat) : ℚ)) := by
  simp [checkFixedWindow, rlIncr, hc, rlExpire]

/-- A fixed-window call on a live counter `c ≥ 1` whose key expires at
`E > now`: the counter becomes `c + 1`, the expiry is untouched, and a
denial carries a positive `retryAfter`. -/
theorem checkFixedWindow_live (s : RLStore) (now : Int) (id : String)
    (N W : Nat) (c : Nat) (E : Int)
    (hc : assocGet s.counters ("fixed:" ++ id) = some c) (hc1 : 1 ≤ c)
    (hE : assocGet s.expireAt ("fixed:" ++ id) = some E) (hnow : now < E) :
    (checkFixedWindow s now id N W).2.counters =
      assocSet s.counters ("fixed:" ++ id) (c + 1) ∧
    (checkFixedWindow s now id N W).2.expireAt = s.expireAt ∧
    (checkFixedWindow s now id N W).1.allowed = decide (c + 1 ≤ N) ∧
    (checkFixedWindow s now id N W).1.remaining =
      max 0 ((N : ℚ) - ((c + 1 : Nat) : ℚ)) ∧
    (¬ (c + 1 ≤ N) → ∃ rt : ℚ,
      (checkFixedWindow s now id N W).1.retryAfter = some rt ∧ 0 < rt) := by
  have hne1 : ¬ (c + 1 = 1) := by omega
  have httl : (0 : Int) < (E - now + 999) / 1000 := by omega
  refine ⟨?_, ?_, ?_, ?_, ?_⟩
  · simp [checkFixedWindow, rlIncr, keyLive, hc, hE, hnow, hne1]
  · simp [checkFixedWindow, rlIncr, keyLive, hc, hE, hnow, hne1]
  · simp [checkFixedWindow, rlIncr, keyLive, hc, hE, hnow, hne1]
  · simp [checkFixedWindow, rlIncr, keyLive, hc, hE, hnow, hne1]
  · intro hdeny
    refine ⟨(((E - now + 999) / 1000 : Int) : ℚ), ?_, by exact_mod_cast httl⟩
    simp [checkFixedWindow, rlIncr, keyLive, hc, hE, hnow, hne1, rlTtl,
      assocGet_assocSet_self, hdeny]

/-- Results of a fixed-window run started on a live counter `c ≥ 1`
whose window expires at `E` after every call time: the i-th result sees
the post-increment count `c + i + 1`. -/
theorem fixedRun_spec (id : String) (N W : Nat) (E : Int) :
    ∀ (times : List Int) (s : RLStore) (c : Nat),
      assocGet s.counters ("fixed:" ++ id) = some c → 1 ≤ c →
      assocGet s.expireAt ("fixed:" ++ id) = some E →
      (∀ t ∈ times, t < E) →
      ∀ i r, (fixedRun id N W s times).1.get? i = some r →
        r.allowed = decide (c + i + 1 ≤ N) ∧
        r.remaining = max 0 ((N : ℚ) - ((c + i + 1 : Nat) : ℚ)) ∧
        (¬ (c + i + 1 ≤ N) → ∃ rt : ℚ, r.retryAfter = some rt ∧ 0 < rt) := by
  intro times
  induction times with
  | nil =>
      intro s c _ _ _ _ i r hr
      simp [fixedRun] at hr
  | cons t ts ih =>
      intro s c hc hc1 hE htimes i r hr
      obtain ⟨hcnt, hexp, hall, hrem, hretry⟩ :=
        checkFixedWindow_live s t id N W c E hc hc1 hE
          (htimes t (List.mem_cons_self t ts))
      simp only [fixedRun] at hr
      cases i with
      | zero =>
          rw [List.get?_cons_zero] at hr
          injection hr with hr
          subst hr
          exact ⟨hall, hrem, hretry⟩
      | succ i' =>
          rw [List.get?_cons_succ] at hr
          have hc' : assocGet
              (checkFixedWindow s t id N W).2.counters ("fixed:" ++ id) =
              some (c + 1) := by
            rw [hcnt]; exact assocGet_assocSet_self _ _ _
          have hE' : assocGet
              (checkFixedWindow s t id N W).2.expireAt ("fixed:" ++ id) =
              some E := by
            rw [hexp]; exact hE
          have hts : ∀ u ∈ ts, u < E :=
            fun u hu => htimes u (List.mem_cons_of_mem t hu)
          have hres := ih (checkFixedWindow s t id N W).2 (c + 1) hc'
            (by omega) hE' hts i' r hr
          have heq : c + 1 + i' + 1 = c + (i' + 1) + 1 := by omega
          rw [heq] at hres
          exact hres

/-! ## Claim theorems -/

/-- Claim C1, counterexample: the first `next()` after `add` returns the
job with `attempts = 0`, not `attempts = 1` — `QueueController.next`
never touches the `attempts` counter (src/unnamed/part_001 lines
129-155; the increment lives in `fail`, line 186). -/
theorem C1_first_next_attempts_zero :
    ((QueueController.next
        (QueueController.add QueueState.empty 0 "j1" "email" "d" 5 3 0)
        5).1.map Job.attempts) = some 0 ∧
    (some 0 : Option Nat) ≠ some 1 := by
  exact ⟨by decide, by decide⟩

/-- Claim C1 (amended): `next()` does not increment `attempts` and does
not persist any change to the job records: whenever it returns a job,
that job is exactly a record already stored before the call, and the
record table afterwards is the table before — so the returned `attempts`
counts the `fail()` calls recorded so far, starting at 0 after `add`. -/
theorem C1_next_returns_stored_record (s : QueueState) (now : Int) (j : Job)
    (h : (QueueController.next s now).1 = some j) :
    (QueueController.next s now).2.jobs = s.jobs ∧
    ∃ id, jobGet s id = some j := by
  unfold QueueController.next at h ⊢
  cases hz : zrangebyscoreHead s.pending 0 now with
  | none => rw [hz] at h; simp at h
  | some m =>
      obtain ⟨sc, jobId⟩ := m
      rw [hz] at h
      cases hj : jobGet s jobId with
      | none =>
          have hj' : assocGet s.jobs ("job:" ++ jobId) = none := hj
          simp only [zrem, jobGet, hj'] at h
          simp at h
      | some job =>
          have hj' : assocGet s.jobs ("job:" ++ jobId) = some job := hj
          simp only [zrem, jobGet, hj'] at h
          simp at h
          subst h
          refine ⟨?_, jobId, hj⟩
          simp [zrem, jobGet, hj']

/-- Claim C1, witness for the amended theorem at the `racedScenario`
state (an eligible job with a stored record). -/
theorem C1_witness :
    (QueueController.next racedScenario 0).2.jobs = racedScenario.jobs ∧
    ∃ id, jobGet racedScenario id = some racedJob := by
  exact C1_next_returns_stored_record racedScenario 0 racedJob (by decide)

/-- Claim C2: when a concurrent worker removes the selected job id from
`pending` between this worker's `ZRANGEBYSCORE` read and its `zrem`
(src/unnamed/part_001 lines 133-142), this worker's `zrem` removes zero
entries, yet `next()` still returns the job as owned — the removal count
is ignored, so both workers receive the same job.  This contradicts the
spec's requirement that a caller that removed zero entries must never
proceed as if it owns the job. -/
theorem C2_raced_next_still_returns_job (s : QueueState) (now sc : Int)
    (jobId : String) (job : Job)
    (h1 : zrangebyscoreHead s.pending 0 now = some (sc, jobId))
    (h2 : jobGet s jobId = some job) :
    (QueueController.nextRaced s now).1 = some job ∧
    (QueueController.nextRaced s now).2.2 = 0 := by
  unfold QueueController.nextRaced
  rw [h1]
  have h2' : assocGet s.jobs ("job:" ++ jobId) = some job := h2
  have hcount := zrem_zrem_count s.pending jobId
  simp only [zrem, jobGet] at h2' hcount ⊢
  simp [h2', hcount]

/-- Claim C2, witness: on `racedScenario`, the raced `next()` reports a
zero removal count and still hands out the job. -/
theorem C2_witness :
    (QueueController.nextRaced racedScenario 0).1 = some racedJob ∧
    (QueueController.nextRaced racedScenario 0).2.2 = 0 := by
  exact C2_raced_next_still_returns_job racedScenario 0 0 "j" racedJob
    (by decide) (by decide)

/-- Claim C10: when the best eligible pending entry's job record is
absent, `next()` removes the id from `pending`, leaves no trace of it in
`processing`, does not touch the record table, and returns `null`
without falling through to any other eligible job (src/unnamed/part_001
lines 142-154). -/
theorem C10_dangling_entry_discarded (s : QueueState) (now sc : Int)
    (jobId : String)
    (h1 : zrangebyscoreHead s.pending 0 now = some (sc, jobId))
    (h2 : jobGet s jobId = none) :
    (QueueController.next s now).1 = none ∧
    (QueueController.next s now).2.pending = (zrem s.pending jobId).2 ∧
    zmem (QueueController.next s now).2.processing jobId = false ∧
    (QueueController.next s now).2.jobs = s.jobs := by
  unfold QueueController.next
  rw [h1]
  have h2' : assocGet s.jobs ("job:" ++ jobId) = none := h2
  simp only [zrem, jobGet, h2']
  simp [zmem_filterNe]

/-- Claim C10, witness: on `danglingScenario` the entry `"ghost"` is
selected (score 0, ahead of the stored job at score 5), its record is
missing, and `next()` returns `null` although `"real"` is eligible. -/
theorem C10_witness :
    (QueueController.next danglingScenario 9).1 = none ∧
    (QueueController.next danglingScenario 9).2.pending =
      (zrem danglingScenario.pending "ghost").2 ∧
    zmem (QueueController.next danglingScenario 9).2.processing "ghost" =
      false ∧
    (QueueController.next danglingScenario 9).2.jobs =
      danglingScenario.jobs := by
  exact C10_dangling_entry_discarded danglingScenario 9 0 "ghost"
    (by decide) (by decide)

/-- Claim C7: `next()` never returns a job whose scheduled time is in
the future, and among eligible pending jobs sharing the returned job's
schedule time the returned job has the greatest priority (ordering score
`scheduledFor + (10 − priority)`, least eligible score claimed first);
concretely, with A(priority 1) and B(priority 10) added in that order
with the same schedule time, `next()` returns B before A. -/
theorem C7_priority_ordering :
    (∀ (s : QueueState) (now : Int) (j : Job), QueueWF s →
      (QueueController.next s now).1 = some j →
      j.scheduledFor ≤ now ∧
      ∀ e ∈ s.pending, ∀ j' : Job, jobGet s e.2 = some j' →
        j'.scheduledFor = j.scheduledFor → 0 ≤ e.1 → e.1 ≤ now →
        j'.priority ≤ j.priority) ∧
    ((QueueController.next prioScenario 9).1.map Job.id = some "B" ∧
     (QueueController.next (QueueController.next prioScenario 9).2 9).1.map
        Job.id = some "A") := by
  constructor
  · intro s now j hwf h
    unfold QueueController.next at h
    cases hz : zrangebyscoreHead s.pending 0 now with
    | none => rw [hz] at h; simp at h
    | some m =>
        obtain ⟨sc, jobId⟩ := m
        rw [hz] at h
        obtain ⟨hmem, hlo, hhi, hmin⟩ := zhead_spec _ _ _ _ hz
        obtain ⟨jb, hjb, hid, hsc, hp1, hp10⟩ := hwf (sc, jobId) hmem
        have hjb' : assocGet s.jobs ("job:" ++ jobId) = some jb := hjb
        simp only [zrem, jobGet, hjb'] at h
        simp at h
        subst h
        constructor
        · have hs : addScore jb.scheduledFor jb.priority ≤ now := by
            rw [← hsc]; exact hhi
          unfold addScore at hs
          omega
        · intro e he j' hj' hsched h0 hnow
          obtain ⟨jb', hjb2, hid', hsc', hp1', hp10'⟩ := hwf e he
          have hj'' : j' = jb' := by
            rw [hj'] at hjb2
            injection hjb2
          subst hj''
          have hle : sc ≤ e.1 := hmin e he h0 hnow
          unfold addScore at hsc hsc'
          omega
  · exact ⟨by decide, by decide⟩

/-- Claim C7, witness: the general part instantiated on `prioScenario`
at time 9, where `next()` returns B. -/
theorem C7_witness :
    prioJobB.scheduledFor ≤ 9 ∧
    ∀ e ∈ prioScenario.pending, ∀ j' : Job,
      jobGet prioScenario e.2 = some j' →
      j'.scheduledFor = prioJobB.scheduledFor → 0 ≤ e.1 → e.1 ≤ 9 →
      j'.priority ≤ prioJobB.priority := by
  have hwf : QueueWF prioScenario := by
    intro e he
    have hp : prioScenario.pending = [(0, "B"), (9, "A")] := by decide
    rw [hp] at he
    rcases List.mem_cons.mp he with rfl | he2
    · exact ⟨prioJobB, by decide, by decide, by decide, by decide, by decide⟩
    · rcases List.mem_cons.mp he2 with rfl | he3
      · exact ⟨{ id := "A", type := "t", data := "d", priority := 1,
                 createdAt := 0, attempts := 0, maxRetries := 3,
                 lastError := none, scheduledFor := 0 },
               by decide, by decide, by decide, by decide, by decide⟩
      · exact absurd he3 (List.not_mem_nil _)
  exact C7_priority_ordering.1 prioScenario 9 prioJobB hwf (by decide)

/-- Claim C6: `fail()` with attempts remaining requeues the job into
`pending` at the backoff schedule `now + 2^attempts·1000` ms (attempts
counted after the increment), persisting the incremented record with the
error and clearing the processing entry; with retries exhausted it adds
the id to the `failed` set instead, leaving `pending` untouched.
Concretely, a job with `maxRetries = 3` failed three times ends with
status `"failed"` and `attempts = 3`. -/
theorem C6_fail_backoff_or_terminal :
    (∀ (s : QueueState) (now : Int) (jobId err : String) (job : Job),
      jobGet s jobId = some job →
      (job.attempts + 1 < job.maxRetries →
        jobGet (QueueController.fail s now jobId err) jobId =
          some { job with attempts := job.attempts + 1,
                          lastError := some err } ∧
        (now + 2 ^ (job.attempts + 1) * 1000, jobId) ∈
          (QueueController.fail s now jobId err).pending ∧
        zmem (QueueController.fail s now jobId err).processing jobId =
          false) ∧
      (job.maxRetries ≤ job.attempts + 1 →
        jobGet (QueueController.fail s now jobId err) jobId =
          some { job with attempts := job.attempts + 1,
                          lastError := some err } ∧
        (QueueController.fail s now jobId err).failed.contains jobId =
          true ∧
        (QueueController.fail s now jobId err).pending = s.pending ∧
        zmem (QueueController.fail s now jobId err).processing jobId =
          false)) ∧
    (QueueController.getStatus failScenario "j" = "failed" ∧
     (jobGet failScenario "j").map Job.attempts = some 3) := by
  constructor
  · intro s now jobId err job hj
    have hj' : assocGet s.jobs ("job:" ++ jobId) = some job := hj
    constructor
    · intro hlt
      unfold QueueController.fail
      simp only [jobGet, hj']
      rw [if_pos hlt]
      refine ⟨?_, ?_, ?_⟩
      · exact assocGet_assocSet_self _ _ _
      · exact List.mem_cons_self _ _
      · simp only [zrem, ne_eq, decide_not]
        exact zmem_filterNe _ jobId
    · intro hge
      unfold QueueController.fail
      simp only [jobGet, hj']
      rw [if_neg (by omega)]
      refine ⟨?_, ?_, ?_, ?_⟩
      · exact assocGet_assocSet_self _ _ _
      · exact saddRun_contains _ _
      · rfl
      · simp only [zrem, ne_eq, decide_not]
        exact zmem_filterNe _ jobId
  · exact ⟨by decide, by decide⟩

/-- Claim C6, witness: the requeue branch instantiated on `racedJob`'s
record stored in `racedScenario` (attempts 0, maxRetries 3) at time 0. -/
theorem C6_witness :
    jobGet (QueueController.fail racedScenario 0 "j" "boom") "j" =
      some { racedJob with attempts := 1, lastError := some "boom" } ∧
    ((0 : Int) + 2 ^ (0 + 1) * 1000, "j") ∈
      (QueueController.fail racedScenario 0 "j" "boom").pending ∧
    zmem (QueueController.fail racedScenario 0 "j" "boom").processing "j" =
      false := by
  exact ((C6_fail_backoff_or_terminal.1 racedScenario 0 "j" "boom" racedJob
    (by decide)).1 (by decide))

/-- Claim C3, counterexample: two concrete failures of the claim.  The
distinct namespace strings `"a"` and `"a:"` both normalize to the prefix
`"a:"` (src/index.ts line 159), so a write through `"a"` is read back
through `"a:"` at the same key — the claimed `null` does not happen.
And even with distinct normalized prefixes the every-key frame fails
across a colon: `"a"` writing key `"b:x"` lands on the full key
`"a:b:x"`, which namespace `"a:b"` reads as its key `"x"`. -/
theorem C3_trailing_colon_collision :
    nsGet (nsSet [] "a" "k" "v") "a:" "k" = some "v" ∧
    ("a" : String) ≠ "a:" ∧
    nsGet (nsSet [] "a" "b:x" "v") "a:b" "x" = some "v" ∧
    normNs "a" ≠ normNs "a:b" := by
  exact ⟨by decide, by decide, by decide, by decide⟩

/-- Claim C3 (amended): for namespaces whose colon-normalized prefixes
differ, a write through one namespace never changes what the other
namespace reads at the same key (so a key absent on that side stays
null); and when additionally neither normalized prefix is a string
prefix of the other — true for every pair of distinct colon-free
namespace strings — a write of any key through one namespace leaves
every key of the other namespace's view unchanged.  Mere prefix
distinctness does not give the every-key guarantee: see the
counterexample's `"a"`/`"a:b"` leak. -/
theorem C3_namespace_isolation :
    (∀ (st : SStore) (ns1 ns2 k v : String),
      normNs ns1 ≠ normNs ns2 →
      nsGet (nsSet st ns1 k v) ns2 k = nsGet st ns2 k) ∧
    (∀ (st : SStore) (ns1 ns2 : String),
      (normNs ns1).data.isPrefixOf (normNs ns2).data = false →
      (normNs ns2).data.isPrefixOf (normNs ns1).data = false →
      ∀ (k k' v : String),
        nsGet (nsSet st ns1 k v) ns2 k' = nsGet st ns2 k') := by
  constructor
  · intro st ns1 ns2 k v h
    unfold nsGet nsSet
    exact assocGet_assocSet_ne _ _ _ _
      (nsKey_ne_of_normNs_ne ns2 ns1 k (Ne.symm h))
  · intro st ns1 ns2 h12 h21 k k' v
    unfold nsGet nsSet
    exact assocGet_assocSet_ne _ _ _ _
      (nsKey_ne_of_not_isPrefixOf ns1 ns2 k k' h12 h21)

/-- Claim C3, witness: same-key isolation for `"a"` vs `"b"` on the
empty store, and every-key isolation for the prefix-free pair
`"a"` vs `"b"` at the unequal keys `"b:x"`/`"x"` — the very key shape
that leaks between `"a"` and `"a:b"`. -/
theorem C3_witness :
    (nsGet (nsSet [] "a" "k" "v") "b" "k" = nsGet [] "b" "k" ∧
     nsGet ([] : SStore) "b" "k" = none) ∧
    nsGet (nsSet [] "a" "b:x" "v") "b" "x" = nsGet [] "b" "x" := by
  refine ⟨⟨C3_namespace_isolation.1 [] "a" "b" "k" "v" (by decide),
    by decide⟩, ?_⟩
  exact C3_namespace_isolation.2 [] "a" "b" (by decide) (by decide)
    "b:x" "x" "v"

/-- Claim C4 (code bug): `reset(id, "token-bucket")` deletes the key
`token-bucket:<id>` (src/unnamed/part_003 line 815), but
`checkTokenBucket` keeps the bucket under `bucket:<id>` (line 762) — the
very key the no-algorithm branch of `reset` (line 816) deletes.  After
one check at capacity 5 (leaving 4 tokens) and a
`reset("alice", "token-bucket")`, the record is still stored, and the
next check continues from 4 tokens (`remaining = 3`) instead of
re-initializing to `tokens = capacity` (`remaining = 4`); `reset` with
no algorithm does clear the bucket. -/
theorem C4_reset_token_bucket_misses_key :
    assocGet (RateLimiterController.reset
        (checkTokenBucket RLStore.empty 0 "alice" 5 1).2 "alice"
        (some "token-bucket")).buckets "bucket:alice" =
      some ⟨4, 0⟩ ∧
    (checkTokenBucket (RateLimiterController.reset
        (checkTokenBucket RLStore.empty 0 "alice" 5 1).2 "alice"
        (some "token-bucket")) 0 "alice" 5 1).1.remaining = 3 ∧
    (checkTokenBucket (RateLimiterController.reset
        (checkTokenBucket RLStore.empty 0 "alice" 5 1).2 "alice"
        none) 0 "alice" 5 1).1.remaining = 4 := by
  refine ⟨?_, ?_, ?_⟩ <;>
  · simp [checkTokenBucket, keyLive, assocGet, assocSet, assocDel,
      RLStore.empty, RateLimiterController.reset, rlDel, Bucket.mk.injEq]
    try norm_num

/-- Claim C5: for a fresh identifier, over any sequence of fixed-window
`check()` calls whose times all fall inside the window opened by the
first call, the i-th result sees the post-increment count `i + 1` and
satisfies `allowed = (count ≤ maxRequests)` and
`remaining = max(0, maxRequests − count)`; hence with `N + 1` calls the
first `N` are allowed and the `(N+1)`-th is denied with
`retryAfter > 0`. -/
theorem C5_fixed_window_boundary (s0 : RLStore) (id : String) (N W : Nat)
    (t0 : Int) (rest : List Int)
    (hfresh : assocGet s0.counters ("fixed:" ++ id) = none)
    (hN : 1 ≤ N) (hW : 0 < W)
    (hwin : ∀ t ∈ rest, t < t0 + (W : Int) * 1000) :
    (∀ i r, (fixedRun id N W s0 (t0 :: rest)).1.get? i = some r →
      r.allowed = decide (i + 1 ≤ N) ∧
      r.remaining = max 0 ((N : ℚ) - ((i + 1 : Nat) : ℚ)) ∧
      (N < i + 1 → ∃ rt : ℚ, r.retryAfter = some rt ∧ 0 < rt)) ∧
    (rest.length = N →
      (∀ i r, i < N →
        (fixedRun id N W s0 (t0 :: rest)).1.get? i = some r →
        r.allowed = true) ∧
      (∀ r, (fixedRun id N W s0 (t0 :: rest)).1.get? N = some r →
        r.allowed = false ∧ ∃ rt : ℚ, r.retryAfter = some rt ∧ 0 < rt)) := by
  obtain ⟨hcnt, hexp, hall, hrem⟩ :=
    checkFixedWindow_fresh s0 t0 id N W hfresh hW
  have hc' : assocGet
      (checkFixedWindow s0 t0 id N W).2.counters ("fixed:" ++ id) =
      some 1 := by
    rw [hcnt]; exact assocGet_assocSet_self _ _ _
  have hE' : assocGet
      (checkFixedWindow s0 t0 id N W).2.expireAt ("fixed:" ++ id) =
      some (t0 + (W : Int) * 1000) := by
    rw [hexp]; exact assocGet_assocSet_self _ _ _
  have hrun := fixedRun_spec id N W (t0 + (W : Int) * 1000) rest
    (checkFixedWindow s0 t0 id N W).2 1 hc' (le_refl 1) hE' hwin
  have main : ∀ i r, (fixedRun id N W s0 (t0 :: rest)).1.get? i = some r →
      r.allowed = decide (i + 1 ≤ N) ∧
      r.remaining = max 0 ((N : ℚ) - ((i + 1 : Nat) : ℚ)) ∧
      (N < i + 1 → ∃ rt : ℚ, r.retryAfter = some rt ∧ 0 < rt) := by
    intro i r hr
    simp only [fixedRun] at hr
    cases i with
    | zero =>
        rw [List.get?_cons_zero] at hr
        injection hr with hr
        subst hr
        refine ⟨hall, hrem, fun hcontra => absurd hcontra (by omega)⟩
    | succ i' =>
        rw [List.get?_cons_succ] at hr
        have hres := hrun i' r hr
        have heq : 1 + i' + 1 = i' + 1 + 1 := by omega
        rw [heq] at hres
        refine ⟨hres.1, hres.2.1, fun hlt => hres.2.2 (by omega)⟩
  refine ⟨main, fun _ => ⟨?_, ?_⟩⟩
  · intro i r hi hr
    rw [(main i r hr).1]
    simp only [decide_eq_true_eq]
    omega
  · intro r hr
    have hm := main N r hr
    refine ⟨?_, hm.2.2 (by omega)⟩
    rw [hm.1]
    simp only [decide_eq_false_iff_not]
    omega

/-- Claim C5, witness: `maxRequests = 2`, `windowSeconds = 60`, three
calls at time 0 on a fresh identifier. -/
theorem C5_witness :
    (∀ i r, (fixedRun "u" 2 60 RLStore.empty [0, 0, 0]).1.get? i = some r →
      r.allowed = decide (i + 1 ≤ 2) ∧
      r.remaining = max 0 ((2 : ℚ) - ((i + 1 : Nat) : ℚ)) ∧
      (2 < i + 1 → ∃ rt : ℚ, r.retryAfter = some rt ∧ 0 < rt)) ∧
    (([0, 0] : List Int).length = 2 →
      (∀ i r, i < 2 →
        (fixedRun "u" 2 60 RLStore.empty [0, 0, 0]).1.get? i = some r →
        r.allowed = true) ∧
      (∀ r, (fixedRun "u" 2 60 RLStore.empty [0, 0, 0]).1.get? 2 = some r →
        r.allowed = false ∧ ∃ rt : ℚ, r.retryAfter = some rt ∧ 0 < rt)) := by
  exact C5_fixed_window_boundary RLStore.empty "u" 2 60 0 [0, 0]
    (by decide) (by decide) (by decide)
    (by intro t ht; simp at ht; omega)

/-- Claim C8, counterexample: after 1 hit and 2 misses the code reports
`hitRate = 33.33` (two-decimal rounding, src/unnamed/part_003 line 520),
which is not `hits/(hits+misses)×100 = 100/3` — the claimed exact
equality fails as soon as the ratio needs more than two decimals. -/
theorem C8_hitRate_rounding_cex :
    (CacheController.getStats c8World "cache").hits = 1 ∧
    (CacheController.getStats c8World "cache").misses = 2 ∧
    (CacheController.getStats c8World "cache").hitRate = 3333 / 100 ∧
    (3333 / 100 : ℚ) ≠ (1 : ℚ) / ((1 : ℚ) + (2 : ℚ)) * 100 := by
  refine ⟨by decide, by decide, ?_, by norm_num⟩
  simp [CacheController.getStats, CacheController.getOrSet,
    CacheController.getKey, CacheWorld.empty, cacheRead, cacheLive, cIncr,
    assocGet, assocSet, statsHitsKey, statsMissesKey, round2, c8World]
  norm_num [round_eq]

/-- Claim C8 (amended): `getOrSet` returns the cached value on a hit
without invoking the loader and loads, stores and returns on a miss, so
two calls on the same (unexpired) key invoke the loader exactly once and
shift the counters by one miss and one hit; `getStats().hitRate` equals
`hits/(hits+misses)×100` rounded to two decimals — 50 after one miss and
one hit, 0 with no requests. -/
theorem C8_cache_accounting :
    (∀ (w : CacheWorld) (now1 now2 ttl : Int) (nsp key v : String),
      cacheRead w now1 (CacheController.getKey nsp key) = none →
      now2 < now1 + ttl * 1000 →
      (CacheController.getOrSet w now1 nsp key v ttl).1 = v ∧
      (CacheController.getOrSet w now1 nsp key v ttl).2.1 = 1 ∧
      (CacheController.getOrSet
        (CacheController.getOrSet w now1 nsp key v ttl).2.2 now2 nsp key v
        ttl).1 = v ∧
      (CacheController.getOrSet
        (CacheController.getOrSet w now1 nsp key v ttl).2.2 now2 nsp key v
        ttl).2.1 = 0 ∧
      (CacheController.getStats
        (CacheController.getOrSet
          (CacheController.getOrSet w now1 nsp key v ttl).2.2 now2 nsp key
          v ttl).2.2 nsp).hits =
        (CacheController.getStats w nsp).hits + 1 ∧
      (CacheController.getStats
        (CacheController.getOrSet
          (CacheController.getOrSet w now1 nsp key v ttl).2.2 now2 nsp key
          v ttl).2.2 nsp).misses =
        (CacheController.getStats w nsp).misses + 1) ∧
    (CacheController.getStats
      (CacheController.getOrSet
        (CacheController.getOrSet CacheWorld.empty 0 "cache" "k" "v"
          300).2.2 0 "cache" "k" "v" 300).2.2 "cache").hitRate = 50 ∧
    (CacheController.getStats CacheWorld.empty "cache").hitRate = 0 := by
  have hkeys : (statsMissesKey : String) ≠ statsHitsKey := by decide
  have hkeys' : (statsHitsKey : String) ≠ statsMissesKey := by decide
  refine ⟨?_, ?_, ?_⟩
  · intro w now1 now2 ttl nsp key v h1 h2
    have hhit : cacheRead
        (CacheController.getOrSet w now1 nsp key v ttl).2.2 now2
        (CacheController.getKey nsp key) = some v := by
      simp only [CacheController.getOrSet, h1]
      simp [cacheRead, cacheLive, assocGet_assocSet_self, h2]
    refine ⟨?_, ?_, ?_, ?_, ?_, ?_⟩
    · simp only [CacheController.getOrSet, h1]
    · simp only [CacheController.getOrSet, h1]
    · simp only [CacheController.getOrSet, h1] at hhit ⊢
      rw [hhit]
    · simp only [CacheController.getOrSet, h1] at hhit ⊢
      rw [hhit]
    · simp only [CacheController.getOrSet, h1] at hhit ⊢
      rw [hhit]
      simp only [CacheController.getStats, cIncr,
        assocGet_assocSet_self, Option.getD_some,
        assocGet_assocSet_ne _ _ _ _ hkeys']
    · simp only [CacheController.getOrSet, h1] at hhit ⊢
      rw [hhit]
      simp only [CacheController.getStats, cIncr,
        assocGet_assocSet_self, Option.getD_some,
        assocGet_assocSet_ne _ _ _ _ hkeys]
  · simp only [CacheController.getStats, CacheController.getOrSet,
      CacheController.getKey, CacheWorld.empty, cacheRead, cacheLive, cIncr,
      assocGet, assocSet, statsHitsKey, statsMissesKey, round2]
    have hne : ("cache:stats:hits" : String) ≠ "cache:stats:misses" := by
      decide
    have hne' : ("cache:stats:misses" : String) ≠ "cache:stats:hits" := by
      decide
    simp only [if_neg hne, if_neg hne']
    norm_num [round_eq]
  · simp only [CacheController.getStats, CacheWorld.empty, assocGet,
      round2]
    norm_num [round_eq]

/-- Claim C8, witness: the two-call accounting instantiated on the empty
store (namespace `"cache"`, key `"k"`, TTL 300, both calls at time 0). -/
theorem C8_witness :
    (CacheController.getOrSet CacheWorld.empty 0 "cache" "k" "v" 300).1 =
      "v" ∧
    (CacheController.getOrSet CacheWorld.empty 0 "cache" "k" "v"
      300).2.1 = 1 ∧
    (CacheController.getOrSet
      (CacheController.getOrSet CacheWorld.empty 0 "cache" "k" "v"
        300).2.2 0 "cache" "k" "v" 300).1 = "v" ∧
    (CacheController.getOrSet
      (CacheController.getOrSet CacheWorld.empty 0 "cache" "k" "v"
        300).2.2 0 "cache" "k" "v" 300).2.1 = 0 ∧
    (CacheController.getStats
      (CacheController.getOrSet
        (CacheController.getOrSet CacheWorld.empty 0 "cache" "k" "v"
          300).2.2 0 "cache" "k" "v" 300).2.2 "cache").hits =
      (CacheController.getStats CacheWorld.empty "cache").hits + 1 ∧
    (CacheController.getStats
      (CacheController.getOrSet
        (CacheController.getOrSet CacheWorld.empty 0 "cache" "k" "v"
          300).2.2 0 "cache" "k" "v" 300).2.2 "cache").misses =
      (CacheController.getStats CacheWorld.empty "cache").misses + 1 := by
  exact C8_cache_accounting.1 CacheWorld.empty 0 0 300 "cache" "k" "v"
    (by decide) (by decide)

/-- Claim C9, counterexample: a single miss through a controller with
namespace `"c1"` changes the `misses` reported by a controller with
namespace `"c2"` over the same store from 0 to 1 — the statistics keys
`cache:stats:hits`/`cache:stats:misses` (src/unnamed/part_003 line 353)
carry no namespace. -/
theorem C9_stats_leak_across_namespaces :
    (CacheController.getStats
      (CacheController.getOrSet CacheWorld.empty 0 "c1" "k" "v" 300).2.2
      "c2").misses = 1 ∧
    (CacheController.getStats CacheWorld.empty "c2").misses = 0 ∧
    (1 : Nat) ≠ 0 := by
  exact ⟨by decide, by decide, by decide⟩

/-- Claim C9 (amended): the hit/miss counters are global to the store,
not per namespace: every `CacheController` instance reads the same
`cache:stats:*` keys, so `getStats` reports identical `hits`, `misses`
and `hitRate` through any namespace, and a miss through one instance
increments the `misses` reported by every other instance (only
`totalKeys` is namespace-scoped). -/
theorem C9_stats_global :
    (∀ (w : CacheWorld) (nsA nsB : String),
      (CacheController.getStats w nsA).hits =
        (CacheController.getStats w nsB).hits ∧
      (CacheController.getStats w nsA).misses =
        (CacheController.getStats w nsB).misses ∧
      (CacheController.getStats w nsA).hitRate =
        (CacheController.getStats w nsB).hitRate) ∧
    (∀ (w : CacheWorld) (now ttl : Int) (nsA nsB key v : String),
      cacheRead w now (CacheController.getKey nsA key) = none →
      (CacheController.getStats
        (CacheController.getOrSet w now nsA key v ttl).2.2 nsB).misses =
      (CacheController.getStats w nsB).misses + 1) := by
  have hkeys : (statsMissesKey : String) ≠ statsHitsKey := by decide
  constructor
  · intro w nsA nsB
    exact ⟨rfl, rfl, rfl⟩
  · intro w now ttl nsA nsB key v h1
    simp only [CacheController.getOrSet, h1]
    simp only [CacheController.getStats, cIncr, assocGet_assocSet_self,
      Option.getD_some]

/-- Claim C9, witness for the amended theorem: the effect conjunct on the
empty store with namespaces `"c1"` and `"c2"`. -/
theorem C9_witness :
    (CacheController.getStats
      (CacheController.getOrSet CacheWorld.empty 0 "c1" "k" "v" 300).2.2
      "c2").misses =
    (CacheController.getStats CacheWorld.empty "c2").misses + 1 := by
  exact C9_stats_global.2 CacheWorld.empty 0 300 "c1" "c2" "k" "v"
    (by decide)

end BunRedis
